import Mathlib

/-!
Verification of the monzo-crawler repository (single-domain BFS web crawler).

This file gives a shallow embedding of the crawler's core components —
`crawler/parser.py` (`parse_links`), `crawler/robots_parser.py`
(`RobotsParser`), `crawler/url_manager.py` (`URLManager`) and
`crawler/crawler.py` (`Crawler._load_robots_txt`, `Crawler.crawl`,
`Crawler.run`, `Crawler.write_urls_to_file`) — together with the parts of
Python's `urllib.parse` the code relies on (`urlparse` netloc/scheme/path
extraction and `urljoin`), and proves or refutes the specification claims
about them.

Python `set`s are modelled as duplicate-free lists built by `setAdd`
(insertion-order deduplication); Python `dict`s keyed by strings as
association lists with overwrite semantics.  Machine-level aspects
(hashing order of `set` iteration) are fixed to insertion order, which is
one legal behaviour; no claim below depends on iteration order of a set.
-/

namespace MonzoCrawler

/-! ### Python string helpers -/

/-- The single-quote character `'`. -/
def squote : Char := Char.ofNat 39

/-- The double-quote character. -/
def dquote : Char := Char.ofNat 34

/-- Python `str` whitespace (ASCII range): space, tab, newline, carriage
return, vertical tab, form feed. -/
def pyIsSpace (c : Char) : Bool :=
  c == ' ' || c == '\t' || c == '\n' || c == '\r' || c == Char.ofNat 11 || c == Char.ofNat 12

/-- Python `str.strip()` (ASCII whitespace). -/
def pyStrip (s : String) : String :=
  String.mk (((s.toList.dropWhile pyIsSpace).reverse.dropWhile pyIsSpace).reverse)

/-- Python `str.lower()` (ASCII case folding, matching the ASCII inputs the
crawler handles). -/
def pyLower (s : String) : String := String.mk (s.toList.map Char.toLower)

/-- Python `str.startswith(pre)`. -/
def strStartsWith (s pre : String) : Bool := pre.toList.isPrefixOf s.toList

/-- Auxiliary for `splitOnChar`. -/
def splitOnCharAux (sep : Char) : List Char → List Char → List (List Char)
  | [], cur => [cur.reverse]
  | c :: cs, cur =>
    if c == sep then cur.reverse :: splitOnCharAux sep cs []
    else splitOnCharAux sep cs (c :: cur)

/-- Python `s.split(sep)` for a one-character separator: `"".split('/') = ['']`,
`"a/b".split('/') = ['a','b']`. -/
def splitOnChar (sep : Char) (s : List Char) : List (List Char) := splitOnCharAux sep s []

/-- Auxiliary for `pySplitWs`. -/
def pySplitWsAux : List Char → List Char → List String
  | [], cur => if cur.isEmpty then [] else [String.mk cur.reverse]
  | c :: cs, cur =>
    if pyIsSpace c then
      if cur.isEmpty then pySplitWsAux cs []
      else String.mk cur.reverse :: pySplitWsAux cs []
    else pySplitWsAux cs (c :: cur)

/-- Python `str.split()` with no argument: split on runs of whitespace,
discarding empty pieces. -/
def pySplitWs (s : String) : List String := pySplitWsAux s.toList []

/-- Python `line.split(":", 1)[1]`: everything after the first colon.  Used
by the robots parser only after a `startswith` check guaranteeing a colon
exists. -/
def afterColon (s : String) : String :=
  String.mk ((s.toList.dropWhile (fun c => !(c == ':'))).drop 1)

/-- Python `str.splitlines()` restricted to `\n` separators.  The robots
parser strips each line afterwards, so `\r` of a `\r\n` pair is removed by
the subsequent `strip()` and the final empty piece produced by a trailing
newline is skipped as a blank line; on such inputs this agrees with Python. -/
def pySplitLines (s : String) : List String := (splitOnChar '\n' s.toList).map String.mk

/-- Python `set.add` on a set modelled as a duplicate-free list: append the
element if and only if it is not already present. -/
def setAdd (s : List String) (x : String) : List String :=
  if x ∈ s then s else s ++ [x]

/-! ### `urllib.parse` subset (CPython 3.11)

Only the pieces the crawler exercises are embedded: `urlsplit`-style
scheme/netloc/path/query/fragment decomposition, `urlunsplit`, and
`urljoin`.  The `;params` component (split off by `urlparse` but not by
`urlsplit`) is not modelled: no URL handled in this development contains a
semicolon, and `urljoin` on such URLs behaves identically with `params`
constantly empty.  The IPv6 bracket `ValueError` check of `urlsplit` is
likewise out of scope (no bracketed hosts occur). -/

/-- Result of `urlsplit`. -/
structure SplitResult where
  scheme : String
  netloc : String
  path : String
  query : String
  fragment : String
deriving DecidableEq, Repr

/-- Characters allowed in a URL scheme (`urllib.parse.scheme_chars`). -/
def schemeChars (c : Char) : Bool := c.isAlpha || c.isDigit || c == '+' || c == '-' || c == '.'

/-- The unsafe bytes `\t`, `\r`, `\n` removed from URLs by `urlsplit`
(`_UNSAFE_URL_BYTES_TO_REMOVE`). -/
def removeUnsafe (s : List Char) : List Char :=
  s.filter (fun c => !(c == '\t' || c == '\r' || c == '\n'))

/-- Scheme detection of `urlsplit`: a colon at position `i > 0`, the first
character an (ASCII) letter, and all characters before the colon in
`scheme_chars`, yield the lowercased scheme and the remainder. -/
def splitSchemePart (url : List Char) : Option (String × List Char) :=
  let pre := url.takeWhile (fun c => !(c == ':'))
  if pre.length < url.length ∧ 0 < pre.length ∧
      (pre.headD ' ').isAlpha = true ∧ pre.all schemeChars = true then
    some (String.mk (pre.map Char.toLower), url.drop (pre.length + 1))
  else
    none

/-- Netloc delimiter of `_splitnetloc`: the netloc runs until the first
`/`, `?` or `#`. -/
def netlocEnd (c : Char) : Bool := c == '/' || c == '?' || c == '#'

/-- Python `urllib.parse.urlsplit(url, scheme)` (see module header for the
modelled subset). -/
def urlsplit (urlS : String) (dscheme : String) : SplitResult :=
  let url0 := removeUnsafe urlS.toList
  let (scheme, url1) :=
    match splitSchemePart url0 with
    | some (s, rest) => (s, rest)
    | none => (String.mk (removeUnsafe dscheme.toList), url0)
  let (nl, url2) :=
    if url1.take 2 = ['/', '/'] then
      ((url1.drop 2).takeWhile (fun c => !(netlocEnd c)),
        (url1.drop 2).dropWhile (fun c => !(netlocEnd c)))
    else
      ([], url1)
  let frag := (url2.dropWhile (fun c => !(c == '#'))).drop 1
  let url3 := url2.takeWhile (fun c => !(c == '#'))
  let query := (url3.dropWhile (fun c => !(c == '?'))).drop 1
  let path := url3.takeWhile (fun c => !(c == '?'))
  ⟨scheme, String.mk nl, String.mk path, String.mk query, String.mk frag⟩

/-- The `netloc` component of a URL, i.e. `urlparse(url).netloc`. -/
def netlocOf (url : String) : String := (urlsplit url "").netloc

/-- The `scheme` component of a URL, i.e. `urlparse(url).scheme`. -/
def schemeOf (url : String) : String := (urlsplit url "").scheme

/-- The `path` component of a URL, i.e. `urlparse(url).path` (no `;params`
splitting, see module header). -/
def pathOf (url : String) : String := (urlsplit url "").path

/-- `urllib.parse.uses_relative`. -/
def uses_relative : List String :=
  ["", "ftp", "http", "gopher", "nntp", "imap", "wais", "file", "https", "shttp",
    "mms", "prospero", "rtsp", "rtspu", "sftp", "svn", "svn+ssh", "ws", "wss"]

/-- `urllib.parse.uses_netloc`. -/
def uses_netloc : List String :=
  ["", "ftp", "http", "gopher", "nntp", "telnet", "imap", "wais", "file", "mms",
    "https", "shttp", "snews", "prospero", "rtsp", "rtspu", "rsync", "svn",
    "svn+ssh", "sftp", "nfs", "git", "git+ssh", "ws", "wss"]

/-- Python `urllib.parse.urlunsplit`. -/
def urlunsplit (p : SplitResult) : String :=
  let url := p.path
  let url :=
    if ¬ p.netloc = "" ∨ (¬ p.scheme = "" ∧ p.scheme ∈ uses_netloc ∧ ¬ url.toList.take 2 = ['/', '/']) then
      "//" ++ p.netloc ++ (if ¬ url = "" ∧ ¬ url.toList.take 1 = ['/'] then "/" ++ url else url)
    else url
  let url := if ¬ p.scheme = "" then p.scheme ++ ":" ++ url else url
  let url := if ¬ p.query = "" then url ++ "?" ++ p.query else url
  if ¬ p.fragment = "" then url ++ "#" ++ p.fragment else url

/-- Join path segments with `/` (Python `'/'.join`). -/
def intercalateSlash : List (List Char) → List Char
  | [] => []
  | [x] => x
  | x :: xs => x ++ '/' :: intercalateSlash xs

/-- The `segments[1:-1] = filter(None, segments[1:-1])` step of `urljoin`:
drop empty segments, keeping the first and last elements untouched. -/
def filterInnerEmpty : List (List Char) → List (List Char)
  | [] => []
  | [x] => [x]
  | x :: xs => x :: ((xs.dropLast.filter (fun seg => !seg.isEmpty)) ++ [xs.getLastD []])

/-- The `.`/`..` resolution loop of `urljoin`. -/
def resolveSegments (segments : List (List Char)) : List (List Char) :=
  let resolved := segments.foldl
    (fun acc seg =>
      if seg = ['.', '.'] then acc.dropLast
      else if seg = ['.'] then acc
      else acc ++ [seg]) []
  if segments.getLastD [] = ['.', '.'] ∨ segments.getLastD [] = ['.'] then resolved ++ [[]]
  else resolved

/-- Python `urllib.parse.urljoin(base, url)` (CPython 3.11, `params`
constantly empty; see module header). -/
def urljoin (base url : String) : String :=
  if base = "" then url
  else if url = "" then base
  else
    let b := urlsplit base ""
    let r := urlsplit url b.scheme
    if ¬ r.scheme = b.scheme ∨ ¬ r.scheme ∈ uses_relative then url
    else
      let nl := if r.scheme ∈ uses_netloc then (if ¬ r.netloc = "" then r.netloc else b.netloc) else r.netloc
      if r.scheme ∈ uses_netloc ∧ ¬ r.netloc = "" then urlunsplit r
      else if r.path = "" then
        urlunsplit ⟨r.scheme, nl, b.path, (if r.query = "" then b.query else r.query), r.fragment⟩
      else
        let baseParts0 := splitOnChar '/' b.path.toList
        let baseParts := if ¬ (baseParts0.getLastD []).isEmpty = true then baseParts0.dropLast else baseParts0
        let psegs := splitOnChar '/' r.path.toList
        let segments :=
          if r.path.toList.take 1 = ['/'] then psegs
          else filterInnerEmpty (baseParts ++ psegs)
        let fp := intercalateSlash (resolveSegments segments)
        urlunsplit ⟨r.scheme, nl, (if fp.isEmpty then "/" else String.mk fp), r.query, r.fragment⟩

/-! ### `crawler/parser.py` — the link extractor -/

/-- Error cases of `parse_links`: `InvalidHTMLContentError` and
`InvalidBaseURLError` from `exceptions.py` (both subclasses of
`ParseLinksException`). -/
inductive ParseErr where
  | invalidHTMLContent
  | invalidBaseURL
deriving DecidableEq, Repr

deriving instance DecidableEq for Except

/-- Characters excluded from an href token by the character class
`[^'" >]` of the pattern `href=['"]([^'" >]+(?: [^'" >]+)*)['"]`. -/
def hrefStop (c : Char) : Bool := c == squote || c == dquote || c == '>'

/-- Match attempt of the href regex at the head of the input.  The pattern
`href=['"]([^'" >]+(?: [^'" >]+)*)['"]` matches here exactly when, after
`href=` and an opening quote, the maximal run of characters containing no
quote and no `>` is nonempty, is immediately followed by a quote (single or
double — the closing quote need not match the opening one), and consists of
space-separated nonempty tokens (no leading, trailing or doubled space —
otherwise the regex backtracking fails, since every candidate end of the
captured group is followed by a space or a token character, never by a
quote).  On success, returns the captured group and the input after the
closing quote, where `re.findall` resumes. -/
def tryHrefAt : List Char → Option (String × List Char)
  | 'h' :: 'r' :: 'e' :: 'f' :: '=' :: q :: rest =>
    if q == squote || q == dquote then
      let run := rest.takeWhile (fun c => !(hrefStop c))
      match rest.drop run.length with
      | q2 :: rest2 =>
        if (q2 == squote || q2 == dquote) ∧ ¬ run = [] ∧
            ((splitOnChar ' ' run).all (fun t => !t.isEmpty)) = true then
          some (String.mk run, rest2)
        else none
      | [] => none
    else none
  | _ => none

/-- Scan of `re.findall` with the href pattern: try a match at every
position, resuming after the end of a successful match.  The fuel argument
is the length of the remaining input; every step consumes at least one
character, so the fuel never runs out when initialised to the input
length. -/
def scanHrefsF : Nat → List Char → List String
  | 0, _ => []
  | _ + 1, [] => []
  | fuel + 1, c :: cs =>
    match tryHrefAt (c :: cs) with
    | some (cap, rest) => cap :: scanHrefsF fuel rest
    | none => scanHrefsF fuel cs

/-- All captured href attribute values of an HTML string, in order
(`re.findall(href_regex, html_content)`). -/
def findHrefs (html : String) : List String := scanHrefsF html.toList.length html.toList

/-- `parse_links(html_content, base_url)` from `crawler/parser.py`: after
validating that the content is nonempty and the base URL has a scheme, it
extracts href values, splits each on whitespace, resolves every token
against the base URL with `urljoin`, and collects the results into a set
(modelled as an insertion-ordered duplicate-free list). -/
def parse_links (html_content base_url : String) : Except ParseErr (List String) :=
  if html_content = "" then .error .invalidHTMLContent
  else if schemeOf base_url = "" then .error .invalidBaseURL
  else .ok ((((findHrefs html_content).flatMap pySplitWs).map
    (fun link => urljoin base_url link)).foldl setAdd [])

/-! ### `crawler/robots_parser.py` — the robots policy engine -/

/-- Association-list model of a Python `dict` from user agents to disallow
sets: does the dict contain the key? -/
def dictHas (d : List (String × List String)) (k : String) : Bool :=
  d.any (fun kv => kv.1 == k)

/-- `d[k] = v` on the association-list dict: overwrite if present, else
append. -/
def dictSet (d : List (String × List String)) (k : String) (v : List String) :
    List (String × List String) :=
  if dictHas d k then d.map (fun kv => if kv.1 == k then (k, v) else kv)
  else d ++ [(k, v)]

/-- `d.get(k, dflt)` on the association-list dict. -/
def dictGetD (d : List (String × List String)) (k : String) (dflt : List String) :
    List String :=
  match d.find? (fun kv => kv.1 == k) with
  | some kv => kv.2
  | none => dflt

/-- The `RobotsParser` object: its `rules` dict mapping user agents to
disallowed path sets. -/
structure RobotsParser where
  rules : List (String × List String)
deriving DecidableEq, Repr

/-- One iteration of the line loop of `RobotsParser._parse_robots_txt`,
acting on the triple (rules, current_user_agent, disallowed_paths).  Note
the source stores the accumulated `disallowed_paths` under the *new* agent
token when a `User-agent:` line is seen (it updates `current_user_agent`
before the dict assignment). -/
def robotsLineStep (acc : List (String × List String) × String × List String)
    (rawLine : String) : List (String × List String) × String × List String :=
  let rules := acc.1
  let current := acc.2.1
  let dis := acc.2.2
  let line := pyStrip rawLine
  if line = "" ∨ strStartsWith line "#" = true then acc
  else if strStartsWith (pyLower line) "user-agent:" = true then
    let agent := pyStrip (afterColon line)
    (dictSet rules agent dis, agent, [])
  else if strStartsWith (pyLower line) "disallow:" = true then
    (rules, current, setAdd dis (pyStrip (afterColon line)))
  else acc

/-- `RobotsParser._parse_robots_txt`: fold the line step over the lines of
the document, then flush the final accumulated disallow set only when the
current agent is not yet a key of the rules dict. -/
def parse_robots_txt (robots_txt : String) : List (String × List String) :=
  let res := (pySplitLines robots_txt).foldl robotsLineStep ([], "*", [])
  if dictHas res.1 res.2.1 then res.1 else dictSet res.1 res.2.1 res.2.2

/-- The `RobotsParser(robots_txt)` constructor. -/
def RobotsParser.ofRobotsTxt (robots_txt : String) : RobotsParser :=
  ⟨parse_robots_txt robots_txt⟩

/-- `RobotsParser.is_allowed(url, user_agent)`: allowed iff the URL's path
matches no disallow rule of the agent's rule set, where
`re.match(rf"^{rule}", path)` on the regex-literal rules occurring here is
prefix matching. -/
def RobotsParser.is_allowed (p : RobotsParser) (url : String)
    (user_agent : String := "*") : Bool :=
  let path := pathOf url
  (dictGetD p.rules user_agent []).all (fun rule => !(strStartsWith path rule))

/-! ### `crawler/url_manager.py` — the URL admission controller -/

/-- The `URLManager` object: the allowed domain fixed at construction and
the visited set. -/
structure URLManager where
  allowed_domain : String
  visited_urls : List String
deriving DecidableEq, Repr

/-- `URLManager.should_visit(url)`: the URL's netloc equals the allowed
domain and the URL has not been visited. -/
def URLManager.should_visit (m : URLManager) (url : String) : Bool :=
  netlocOf url == m.allowed_domain && !(m.visited_urls.contains url)

/-- `URLManager.mark_visited(url)`: add the URL to the visited set. -/
def URLManager.mark_visited (m : URLManager) (url : String) : URLManager :=
  { m with visited_urls := setAdd m.visited_urls url }

/-! ### `crawler/crawler.py` — the crawl scheduler

The `Crawler.run` loop is modelled as a transition system executed under
one legal thread schedule: the main thread drains the queue and submits the
whole level's tasks while holding `queue_lock` (during which no worker has
yet mutated the visited sets), and the workers' `crawl` bodies together
with the main thread's per-future link-enqueue handling then execute
serially, in an arbitrary order of the level's tasks given by a schedule
parameter `σ` (the `as_completed` completion order is unordered across
workers).  The network is a pure map `web` from URL to optional HTML body,
and the robots fetch outcome is a parameter `resp`. -/

/-- Outcome of the single `session.get` for `robots.txt`: a status/body
response, or a `requests.RequestException`. -/
inductive HttpResult where
  | success (status : Nat) (body : String)
  | failure
deriving DecidableEq, Repr

/-- The URL requested by `Crawler._load_robots_txt`: always the literal
f-string `https://{allowed_domain}/robots.txt`, whatever the seed URL's
scheme. -/
def robots_url (allowed_domain : String) : String :=
  "https://" ++ allowed_domain ++ "/robots.txt"

/-- `Crawler._load_robots_txt` outcome: `raise_for_status` raises for
status codes in 400–599, which the `except` clause turns into a disabled
engine (`None`); a 200 body is parsed; any other status only logs a
warning and leaves the engine `None`. -/
def load_robots_txt (resp : HttpResult) : Option RobotsParser :=
  match resp with
  | .failure => none
  | .success status body =>
    if 400 ≤ status ∧ status < 600 then none
    else if status = 200 then some (RobotsParser.ofRobotsTxt body)
    else none

/-- The robots gate of `Crawler._fetch`:
`if self.robots_parser and not self.robots_parser.is_allowed(url)`.
With no engine installed every URL passes (fail-open). -/
def robotsBlocked (rp : Option RobotsParser) (url : String) : Bool :=
  match rp with
  | none => false
  | some p => !(p.is_allowed url)

/-- Events of a crawl execution, in the order they occur. -/
inductive Ev where
  | robotsGet (url : String)
  | dispatch (url : String) (depth : Nat)
  | fetchAttempt (url : String)
  | complete (url : String) (depth : Nat)
  | write (lines : List String)
deriving DecidableEq, Repr

/-- Mutable state of the `Crawler`: its `URLManager`, its own `visited`
set, and the frontier `queue` of `(url, depth)` pairs. -/
structure CrawlState where
  um : URLManager
  visited : List String
  queue : List (String × Nat)
deriving DecidableEq, Repr

/-- One `Crawler.crawl(url, depth)` body.  A robots rejection or a failed
GET is caught inside `crawl` and yields `set()` with the state untouched;
on a successful GET the URL is marked visited in both sets (under
`visited_lock`) and the page is parsed, a `ParseLinksException` escaping
`crawl` after the marking.  Returns the `crawl` result, the new state, and
the fetch-attempt events (`session.get` is reached only when the robots
gate passes). -/
def crawlStep (rp : Option RobotsParser) (web : String → Option String)
    (st : CrawlState) (url : String) :
    Except ParseErr (List String) × CrawlState × List Ev :=
  if robotsBlocked rp url then (.ok [], st, [])
  else
    match web url with
    | none => (.ok [], st, [.fetchAttempt url])
    | some html =>
      let st1 : CrawlState :=
        { st with um := st.um.mark_visited url, visited := setAdd st.visited url }
      (parse_links html url, st1, [.fetchAttempt url])

/-- The link-enqueue handling of `Crawler.run` for one completed future:
each link not in `visited` and admissible by `should_visit` is appended to
the queue at `depth + 1`. -/
def enqueueLinks (st : CrawlState) (links : List String) (depth : Nat) :
    List (String × Nat) :=
  (links.filter (fun link => !(st.visited.contains link) && st.um.should_visit link)).map
    (fun link => (link, depth + 1))

/-- One task of a level: the `crawl` body followed by its future's enqueue
handling in `run` (an exception from `crawl` is caught in `run` and
enqueues nothing). -/
def taskEffect (rp : Option RobotsParser) (web : String → Option String)
    (st : CrawlState) (url : String) (depth : Nat) : CrawlState × List Ev :=
  let r := crawlStep rp web st url
  match r.1 with
  | .ok links =>
    ({ r.2.1 with queue := r.2.1.queue ++ enqueueLinks r.2.1 links depth }, r.2.2)
  | .error _ => (r.2.1, r.2.2)

/-- Serial execution of a level's dispatched tasks, each completion event
following its task's events. -/
def execTasks (rp : Option RobotsParser) (web : String → Option String) :
    List (String × Nat) → CrawlState → CrawlState × List Ev
  | [], st => (st, [])
  | (url, depth) :: rest, st =>
    let t := taskEffect rp web st url depth
    let r2 := execTasks rp web rest t.1
    (r2.1, t.2 ++ [.complete url depth] ++ r2.2)

/-- One iteration of the `while self.queue` loop: drain the queue, admit
the entries with `depth <= max_depth` that pass `should_visit` (no worker
has yet marked anything in this level under the modelled schedule), emit
their dispatch events, then execute the level's tasks in the order chosen
by the schedule `σk`. -/
def runLevel (rp : Option RobotsParser) (web : String → Option String)
    (max_depth : Nat) (σk : List (String × Nat) → List (String × Nat))
    (st : CrawlState) : CrawlState × List Ev :=
  let batch := st.queue.filter
    (fun e => decide (e.2 ≤ max_depth) && st.um.should_visit e.1)
  let r := execTasks rp web (σk batch) { st with queue := [] }
  (r.1, batch.map (fun e => .dispatch e.1 e.2) ++ r.2)

/-- The `while self.queue` loop, by fuel over the remaining levels; `k` is
the current level index (used only to select the schedule of that level).
The fuel `max_depth + 2` used below always suffices, because every entry of
the level-`k` frontier has depth `k` and levels beyond `max_depth` admit
nothing. -/
def runLevels (rp : Option RobotsParser) (web : String → Option String)
    (max_depth : Nat) (σ : Nat → List (String × Nat) → List (String × Nat)) :
    Nat → Nat → CrawlState → CrawlState × List Ev
  | 0, _, st => (st, [])
  | fuel + 1, k, st =>
    if st.queue = [] then (st, [])
    else
      let r := runLevel rp web max_depth (σ k) st
      let r2 := runLevels rp web max_depth σ fuel (k + 1) r.1
      (r2.1, r.2 ++ r2.2)

/-- Lexicographic order on character lists by code point, the order of
Python `sorted` on `str`. -/
def lexLe : List Char → List Char → Bool
  | [], _ => true
  | _ :: _, [] => false
  | a :: as, b :: bs => if a = b then lexLe as bs else decide (a < b)

/-- Python string order as a relation, for `sorted(self.visited)`. -/
def pyLeRel (a b : String) : Prop := lexLe a.toList b.toList = true

instance : DecidableRel pyLeRel := fun _ _ => instDecidableEqBool _ _

instance : IsTotal String pyLeRel where
  total a b := by
    suffices h : ∀ x y : List Char, lexLe x y = true ∨ lexLe y x = true from
      h a.toList b.toList
    intro x
    induction x with
    | nil => intro y; exact Or.inl rfl
    | cons x xs ih =>
      intro y
      cases y with
      | nil => exact Or.inr rfl
      | cons y ys =>
        by_cases hxy : x = y
        · subst hxy
          rcases ih ys with h | h
          · exact Or.inl (by simp only [lexLe, if_pos rfl]; exact h)
          · exact Or.inr (by simp only [lexLe, if_pos rfl]; exact h)
        · rcases lt_trichotomy x y with hlt | heq | hgt
          · exact Or.inl (by simp only [lexLe, if_neg hxy, decide_eq_true_eq]; exact hlt)
          · exact absurd heq hxy
          · exact Or.inr
              (by simp only [lexLe, if_neg (Ne.symm hxy), decide_eq_true_eq]; exact hgt)

instance : IsTrans String pyLeRel where
  trans a b c hab hbc := by
    suffices h : ∀ x y z : List Char,
        lexLe x y = true → lexLe y z = true → lexLe x z = true from
      h a.toList b.toList c.toList hab hbc
    intro x
    induction x with
    | nil => intro y z _ _; rfl
    | cons x xs ih =>
      intro y z hab hbc
      cases y with
      | nil => exact absurd hab (by simp [lexLe])
      | cons y ys =>
        cases z with
        | nil => exact absurd hbc (by simp [lexLe])
        | cons z zs =>
          by_cases hxy : x = y <;> by_cases hyz : y = z
          · subst hxy; subst hyz
            simp only [lexLe, if_pos rfl] at hab hbc ⊢
            exact ih ys zs hab hbc
          · subst hxy
            simp only [lexLe, if_pos rfl, if_neg hyz, decide_eq_true_eq] at hbc ⊢
            exact hbc
          · subst hyz
            simp only [lexLe, if_neg hxy, decide_eq_true_eq] at hab ⊢
            exact hab
          · simp only [lexLe, if_neg hxy, if_neg hyz, decide_eq_true_eq] at hab hbc
            have hxz : x < z := lt_trans hab hbc
            simp only [lexLe, if_neg (ne_of_lt hxz), decide_eq_true_eq]
            exact hxz

/-- `Crawler.write_urls_to_file`: the lines written to the output file, the
sorted visited set, one URL per line. -/
def write_urls_to_file (visited : List String) : List String :=
  List.insertionSort pyLeRel visited

/-- A whole crawl of `Crawler(start_url, max_depth, ...)` followed by
`run()`: the constructor fixes `allowed_domain` = netloc of the seed and
fetches `robots.txt` once (outcome `resp`); `run` seeds the queue with
`(start_url, 0)`, loops over levels, and finally writes the sorted visited
set.  Returns the final state and the full event trace. -/
def fullRun (start_url : String) (web : String → Option String)
    (resp : HttpResult) (max_depth : Nat)
    (σ : Nat → List (String × Nat) → List (String × Nat)) :
    CrawlState × List Ev :=
  let rp := load_robots_txt resp
  let st0 : CrawlState :=
    { um := ⟨netlocOf start_url, []⟩, visited := [], queue := [(start_url, 0)] }
  let r := runLevels rp web max_depth σ (max_depth + 2) 0 st0
  (r.1, .robotsGet (robots_url (netlocOf start_url)) ::
    (r.2 ++ [.write (write_urls_to_file r.1.visited)]))

/-- Final crawler state of a run. -/
def fullRunState (start_url : String) (web : String → Option String)
    (resp : HttpResult) (max_depth : Nat)
    (σ : Nat → List (String × Nat) → List (String × Nat)) : CrawlState :=
  (fullRun start_url web resp max_depth σ).1

/-- Event trace of a run. -/
def fullRunTrace (start_url : String) (web : String → Option String)
    (resp : HttpResult) (max_depth : Nat)
    (σ : Nat → List (String × Nat) → List (String × Nat)) : List Ev :=
  (fullRun start_url web resp max_depth σ).2

/-- Is the event the robots GET? -/
def Ev.isRobotsGet : Ev → Bool
  | .robotsGet _ => true
  | _ => false

/-- Is the event the output-file write? -/
def Ev.isWrite : Ev → Bool
  | .write _ => true
  | _ => false

/-- Events a level-`k` execution may emit: dispatches and completions carry
depth exactly `k`; fetch attempts carry no depth; the robots GET and the
file write never occur inside a level. -/
def evAtLevel (k : Nat) : Ev → Prop
  | .dispatch _ d => d = k
  | .complete _ d => d = k
  | .fetchAttempt _ => True
  | .robotsGet _ => False
  | .write _ => False

/-- Lower bound on the depth of dispatch and completion events. -/
def evGeLevel (k : Nat) : Ev → Prop
  | .dispatch _ d => k ≤ d
  | .complete _ d => k ≤ d
  | _ => True

/-- Ordering relation between an earlier and a later trace event: an
earlier dispatch never has greater depth than a later completion.  A trace
pairwise-ordered by this relation never dispatches depth `d + 1` before a
depth-`d` completion. -/
def evR (a b : Ev) : Prop :=
  ∀ u d u' d', a = .dispatch u d → b = .complete u' d' → d ≤ d'

/-- Whether the fetch of a URL succeeds: the robots gate passes and the
network returns a body. -/
def fetchSucceeds (rp : Option RobotsParser) (web : String → Option String)
    (url : String) : Prop :=
  robotsBlocked rp url = false ∧ web url ≠ none

/-- Example site: the seed links to `/a` and `/b`, both of which link to
`/c`.  Exhibits the duplicate-fetch race of claim C2. -/
def exWebDup : String → Option String := fun u =>
  if u = "https://example.com" then some "<a href=\"/a\"> <a href=\"/b\">"
  else if u = "https://example.com/a" then some "<a href=\"/c\">"
  else if u = "https://example.com/b" then some "<a href=\"/c\">"
  else if u = "https://example.com/c" then some "<html>x</html>"
  else none

/-- Example site: the seed links to `/a`, a leaf page. -/
def exWebChain : String → Option String := fun u =>
  if u = "https://example.com" then some "<a href=\"/a\">"
  else if u = "https://example.com/a" then some "<html>z</html>"
  else none

/-- Example site with no reachable pages. -/
def exWebEmpty : String → Option String := fun _ => none

/-- The identity schedule: each level's tasks run in dispatch order. -/
def idSchedule : Nat → List (String × Nat) → List (String × Nat) := fun _ l => l

/-! ### Basic lemmas about the set model -/

/-- Membership after a `set.add`. -/
theorem mem_setAdd {s : List String} {x v : String} :
    v ∈ setAdd s x ↔ v ∈ s ∨ v = x := by
  unfold setAdd
  split
  · next h =>
    constructor
    · exact Or.inl
    · rintro (hv | rfl)
      · exact hv
      · exact h
  · simp

/-- Self-membership after a `set.add`. -/
theorem self_mem_setAdd (s : List String) (x : String) : x ∈ setAdd s x :=
  mem_setAdd.mpr (Or.inr rfl)

/-- `set.add` preserves freedom from duplicates. -/
theorem setAdd_nodup {s : List String} (h : s.Nodup) (x : String) :
    (setAdd s x).Nodup := by
  unfold setAdd
  split
  · exact h
  · next hx => simp [List.nodup_append, h, hx]

/-- `set.add` of an element already present is a no-op. -/
theorem setAdd_mem_eq {s : List String} {x : String} (h : x ∈ s) : setAdd s x = s := by
  unfold setAdd
  exact if_pos h

/-! ### Claims C4 and C5 — the URL admission controller -/

/-- Claim C4: for every URL `U` and every state of the admission
controller, `should_visit U` returns true if and only if the netloc (the
host component as URL parsing yields it) of `U` equals the fixed domain
string the controller was constructed with, and `U` is not a member of the
visited set. -/
theorem claim_C4_should_visit_iff (m : URLManager) (url : String) :
    m.should_visit url = true ↔
      (netlocOf url = m.allowed_domain ∧ url ∉ m.visited_urls) := by
  simp [URLManager.should_visit]

/-- Claim C5: `mark_visited` is idempotent — calling it twice leaves the
whole controller state (in particular the visited set) equal to calling it
once — and after any `mark_visited U` call, `should_visit U` returns
false. -/
theorem claim_C5_mark_visited_idempotent (m : URLManager) (url : String) :
    (m.mark_visited url).mark_visited url = m.mark_visited url ∧
      (m.mark_visited url).should_visit url = false := by
  constructor
  · have h : setAdd (setAdd m.visited_urls url) url = setAdd m.visited_urls url :=
      setAdd_mem_eq (self_mem_setAdd _ _)
    simp [URLManager.mark_visited, h]
  · have hmem : url ∈ (m.mark_visited url).visited_urls := self_mem_setAdd _ _
    unfold URLManager.should_visit
    simp [hmem]

/-! ### Claim C1 — the robots policy engine drops its rules -/

/-- Claim C1 (refuted, code bug): the spec requires the policy document
`User-agent: *\nDisallow: /private` to make
`isAllowed("https://example.com/private/x")` false, with `Disallow` lines
following a `User-agent` line belonging to that agent's rule set.  The
source instead assigns the previously accumulated disallow set to the
*newly* opened agent token (`current_user_agent` is updated before the dict
assignment in `_parse_robots_txt`), and the final flush is skipped because
that agent is already a key; so `/private` is dropped, the `*` rule set is
empty, and both URLs are reported allowed. -/
theorem claim_C1_robots_rules_lost :
    (RobotsParser.ofRobotsTxt "User-agent: *\nDisallow: /private").is_allowed
        "https://example.com/private/x" = true ∧
      (RobotsParser.ofRobotsTxt "User-agent: *\nDisallow: /private").is_allowed
        "https://example.com/public" = true ∧
      (RobotsParser.ofRobotsTxt "User-agent: *\nDisallow: /private").rules =
        [("*", [])] := by
  decide

/-! ### Claims C6 and C7 — the link extractor -/

/-- Claim C6: the link extractor resolves each whitespace-separated token
inside an href attribute value as an independent candidate link against the
base URL: `<a href="/p1">` plus `<a href="p2">` with base
`https://example.com` yields exactly the two absolute URLs, and the single
attribute `href="https://example.com/p1 https://example.com/p2"` yields
both URLs as separate members of the result set. -/
theorem claim_C6_multi_token_href :
    parse_links "<a href=\"/p1\"><a href=\"p2\">" "https://example.com" =
        .ok ["https://example.com/p1", "https://example.com/p2"] ∧
      parse_links "<a href=\"https://example.com/p1 https://example.com/p2\">"
          "https://example.com" =
        .ok ["https://example.com/p1", "https://example.com/p2"] := by
  decide

/-- Claim C7: `parse_links` fails synchronously with the
empty-content error kind when the HTML text is empty, with the
malformed-base error kind when the base URL has no scheme, the two kinds
are distinct, and for well-formed inputs it returns a result rather than an
error. -/
theorem claim_C7_input_validation (html base : String) :
    (parse_links "" base = .error .invalidHTMLContent) ∧
      (html ≠ "" → schemeOf base = "" → parse_links html base = .error .invalidBaseURL) ∧
      (html ≠ "" → schemeOf base ≠ "" → ∃ links, parse_links html base = .ok links) ∧
      (ParseErr.invalidHTMLContent ≠ ParseErr.invalidBaseURL) := by
  refine ⟨rfl, ?_, ?_, by decide⟩
  · intro h1 h2
    unfold parse_links
    rw [if_neg h1, if_pos h2]
  · intro h1 h2
    unfold parse_links
    rw [if_neg h1, if_neg h2]
    exact ⟨_, rfl⟩

/-- Witness for C7 at concrete inputs: a base URL with no scheme is
rejected with the malformed-base kind, and a well-formed pair of arguments
produces a result. -/
theorem claim_C7_witness :
    parse_links "<a>" "nope" = .error .invalidBaseURL ∧
      (∃ links, parse_links "<a>" "https://example.com" = .ok links) := by
  exact ⟨(claim_C7_input_validation "<a>" "nope").2.1 (by decide) (by decide),
    (claim_C7_input_validation "<a>" "https://example.com").2.2.1 (by decide) (by decide)⟩

/-! ### Structural lemmas about one crawl task -/

/-- Every event a `crawl` body emits is its own fetch attempt. -/
theorem crawlStep_events (rp : Option RobotsParser) (web : String → Option String)
    (st : CrawlState) (url : String) :
    ∀ ev ∈ (crawlStep rp web st url).2.2, ev = Ev.fetchAttempt url := by
  intro ev h
  unfold crawlStep at h
  split at h
  · simp at h
  · split at h
    · simp at h; exact h
    · simp at h; exact h

/-- A `crawl` body never touches the frontier queue. -/
theorem crawlStep_queue (rp : Option RobotsParser) (web : String → Option String)
    (st : CrawlState) (url : String) :
    (crawlStep rp web st url).2.1.queue = st.queue := by
  unfold crawlStep
  split
  · rfl
  · split <;> rfl

/-- A `crawl` body never changes the allowed domain. -/
theorem crawlStep_domain (rp : Option RobotsParser) (web : String → Option String)
    (st : CrawlState) (url : String) :
    (crawlStep rp web st url).2.1.um.allowed_domain = st.um.allowed_domain := by
  unfold crawlStep
  split
  · rfl
  · split <;> rfl

/-- Any URL in the crawler's visited set after a `crawl` body was either
already there or is the crawled URL with a successful fetch. -/
theorem crawlStep_visited_mem {rp : Option RobotsParser} {web : String → Option String}
    {st : CrawlState} {url v : String}
    (h : v ∈ (crawlStep rp web st url).2.1.visited) :
    v ∈ st.visited ∨ (v = url ∧ fetchSucceeds rp web url) := by
  unfold crawlStep at h
  split at h
  · exact Or.inl h
  · next hnb =>
    split at h
    · exact Or.inl h
    · next html hw =>
      rcases mem_setAdd.mp h with hv | rfl
      · exact Or.inl hv
      · refine Or.inr ⟨rfl, Bool.not_eq_true _ ▸ hnb, ?_⟩
        rw [hw]
        exact Option.noConfusion

/-- Same as `crawlStep_visited_mem` for the `URLManager`'s visited set. -/
theorem crawlStep_um_mem {rp : Option RobotsParser} {web : String → Option String}
    {st : CrawlState} {url v : String}
    (h : v ∈ (crawlStep rp web st url).2.1.um.visited_urls) :
    v ∈ st.um.visited_urls ∨ (v = url ∧ fetchSucceeds rp web url) := by
  unfold crawlStep at h
  split at h
  · exact Or.inl h
  · next hnb =>
    split at h
    · exact Or.inl h
    · next html hw =>
      rcases mem_setAdd.mp (show v ∈ setAdd st.um.visited_urls url from h) with hv | rfl
      · exact Or.inl hv
      · refine Or.inr ⟨rfl, Bool.not_eq_true _ ▸ hnb, ?_⟩
        rw [hw]
        exact Option.noConfusion

/-- A `crawl` body preserves freedom from duplicates of the crawler's
visited set. -/
theorem crawlStep_visited_nodup {rp : Option RobotsParser} {web : String → Option String}
    {st : CrawlState} {url : String} (h : st.visited.Nodup) :
    (crawlStep rp web st url).2.1.visited.Nodup := by
  unfold crawlStep
  split
  · exact h
  · split
    · exact h
    · exact setAdd_nodup h url

/-- Claim C10, local part: when the fetch of a URL fails — the robots gate
rejects it (`RobotsDisallowedError`) or the GET fails (`FetchError`) — the
`crawl` body returns the empty link set and leaves the state untouched. -/
theorem crawlStep_failed (rp : Option RobotsParser) (web : String → Option String)
    (st : CrawlState) (url : String)
    (h : robotsBlocked rp url = true ∨ web url = none) :
    (crawlStep rp web st url).1 = .ok [] ∧ (crawlStep rp web st url).2.1 = st := by
  rcases h with h | h
  · unfold crawlStep
    rw [if_pos h]
    exact ⟨rfl, rfl⟩
  · unfold crawlStep
    split
    · exact ⟨rfl, rfl⟩
    · rw [h]
      exact ⟨rfl, rfl⟩

/-! ### Structural lemmas about task and level execution -/

/-- Every event of one task's effect is its own fetch attempt. -/
theorem taskEffect_events (rp : Option RobotsParser) (web : String → Option String)
    (st : CrawlState) (url : String) (depth : Nat) :
    ∀ ev ∈ (taskEffect rp web st url depth).2, ev = Ev.fetchAttempt url := by
  intro ev h
  simp only [taskEffect] at h
  split at h <;> exact crawlStep_events rp web st url ev h

/-- Every frontier entry after one task's effect was already enqueued or
was enqueued by this task at depth `depth + 1`. -/
theorem taskEffect_queue {rp : Option RobotsParser} {web : String → Option String}
    {st : CrawlState} {url : String} {depth : Nat} {e : String × Nat}
    (h : e ∈ (taskEffect rp web st url depth).1.queue) :
    e ∈ st.queue ∨ e.2 = depth + 1 := by
  simp only [taskEffect] at h
  split at h
  · rw [List.mem_append] at h
    rcases h with h | h
    · exact Or.inl (crawlStep_queue rp web st url ▸ h)
    · right
      unfold enqueueLinks at h
      rcases List.mem_map.mp h with ⟨l, _, rfl⟩
      rfl
  · exact Or.inl (crawlStep_queue rp web st url ▸ h)

/-- Visited-set membership after one task's effect. -/
theorem taskEffect_visited_mem {rp : Option RobotsParser} {web : String → Option String}
    {st : CrawlState} {url v : String} {depth : Nat}
    (h : v ∈ (taskEffect rp web st url depth).1.visited) :
    v ∈ st.visited ∨ (v = url ∧ fetchSucceeds rp web url) := by
  simp only [taskEffect] at h
  split at h <;> exact crawlStep_visited_mem h

/-- `URLManager` visited-set membership after one task's effect. -/
theorem taskEffect_um_mem {rp : Option RobotsParser} {web : String → Option String}
    {st : CrawlState} {url v : String} {depth : Nat}
    (h : v ∈ (taskEffect rp web st url depth).1.um.visited_urls) :
    v ∈ st.um.visited_urls ∨ (v = url ∧ fetchSucceeds rp web url) := by
  simp only [taskEffect] at h
  split at h <;> exact crawlStep_um_mem h

/-- One task's effect preserves freedom from duplicates of the visited
set. -/
theorem taskEffect_visited_nodup {rp : Option RobotsParser} {web : String → Option String}
    {st : CrawlState} {url : String} {depth : Nat} (h : st.visited.Nodup) :
    (taskEffect rp web st url depth).1.visited.Nodup := by
  simp only [taskEffect]
  split <;> exact crawlStep_visited_nodup h

/-- Level execution emits only fetch attempts and completions. -/
theorem execTasks_shape (rp : Option RobotsParser) (web : String → Option String) :
    ∀ (tasks : List (String × Nat)) (st : CrawlState),
      ∀ ev ∈ (execTasks rp web tasks st).2,
        (∃ u, ev = Ev.fetchAttempt u) ∨ ∃ u d, ev = Ev.complete u d := by
  intro tasks
  induction tasks with
  | nil => intro st ev h; simp [execTasks] at h
  | cons e rest ih =>
    obtain ⟨url, depth⟩ := e
    intro st ev h
    simp only [execTasks] at h
    rw [List.mem_append, List.mem_append] at h
    rcases h with (h | h) | h
    · exact Or.inl ⟨url, taskEffect_events _ _ _ _ _ ev h⟩
    · rw [List.mem_singleton] at h
      exact Or.inr ⟨url, depth, h⟩
    · exact ih _ ev h

/-- When all tasks of a level carry depth `k`, every event the level's
execution emits is at level `k`. -/
theorem execTasks_evAtLevel (rp : Option RobotsParser) (web : String → Option String)
    (k : Nat) : ∀ (tasks : List (String × Nat)) (st : CrawlState),
      (∀ e ∈ tasks, e.2 = k) →
      ∀ ev ∈ (execTasks rp web tasks st).2, evAtLevel k ev := by
  intro tasks
  induction tasks with
  | nil => intro st _ ev h; simp [execTasks] at h
  | cons e rest ih =>
    obtain ⟨url, depth⟩ := e
    intro st hdep ev h
    simp only [execTasks] at h
    rw [List.mem_append, List.mem_append] at h
    rcases h with (h | h) | h
    · rw [taskEffect_events _ _ _ _ _ ev h]
      trivial
    · rw [List.mem_singleton] at h
      subst h
      show depth = k
      exact hdep (url, depth) (List.mem_cons_self _ _)
    · exact ih _ (fun e' he' => hdep e' (List.mem_cons_of_mem _ he')) ev h

/-- When all tasks of a level carry depth `k` and all already-queued
entries carry depth `k + 1`, every queued entry after the level's execution
carries depth `k + 1`. -/
theorem execTasks_queue_depths (rp : Option RobotsParser) (web : String → Option String)
    (k : Nat) : ∀ (tasks : List (String × Nat)) (st : CrawlState),
      (∀ e ∈ tasks, e.2 = k) → (∀ e ∈ st.queue, e.2 = k + 1) →
      ∀ e ∈ (execTasks rp web tasks st).1.queue, e.2 = k + 1 := by
  intro tasks
  induction tasks with
  | nil => intro st _ hq e he; exact hq e he
  | cons hd rest ih =>
    obtain ⟨url, depth⟩ := hd
    intro st htasks hq e he
    simp only [execTasks] at he
    refine ih _ (fun e' he' => htasks e' (List.mem_cons_of_mem _ he')) ?_ e he
    intro e' he'
    rcases taskEffect_queue he' with h | h
    · exact hq e' h
    · have hdk : depth = k := htasks (url, depth) (List.mem_cons_self _ _)
      rw [h, hdk]

/-- Any URL visited after a level's execution was already visited or had a
successful fetch. -/
theorem execTasks_visited_mem (rp : Option RobotsParser) (web : String → Option String) :
    ∀ (tasks : List (String × Nat)) (st : CrawlState) (v : String),
      v ∈ (execTasks rp web tasks st).1.visited →
      v ∈ st.visited ∨ fetchSucceeds rp web v := by
  intro tasks
  induction tasks with
  | nil => intro st v h; exact Or.inl h
  | cons hd rest ih =>
    obtain ⟨url, depth⟩ := hd
    intro st v h
    simp only [execTasks] at h
    rcases ih _ v h with h' | h'
    · rcases taskEffect_visited_mem h' with h'' | ⟨rfl, hs⟩
      · exact Or.inl h''
      · exact Or.inr hs
    · exact Or.inr h'

/-- Same as `execTasks_visited_mem` for the `URLManager`'s visited set. -/
theorem execTasks_um_mem (rp : Option RobotsParser) (web : String → Option String) :
    ∀ (tasks : List (String × Nat)) (st : CrawlState) (v : String),
      v ∈ (execTasks rp web tasks st).1.um.visited_urls →
      v ∈ st.um.visited_urls ∨ fetchSucceeds rp web v := by
  intro tasks
  induction tasks with
  | nil => intro st v h; exact Or.inl h
  | cons hd rest ih =>
    obtain ⟨url, depth⟩ := hd
    intro st v h
    simp only [execTasks] at h
    rcases ih _ v h with h' | h'
    · rcases taskEffect_um_mem h' with h'' | ⟨rfl, hs⟩
      · exact Or.inl h''
      · exact Or.inr hs
    · exact Or.inr h'

/-- Level execution preserves freedom from duplicates of the visited
set. -/
theorem execTasks_visited_nodup (rp : Option RobotsParser) (web : String → Option String) :
    ∀ (tasks : List (String × Nat)) (st : CrawlState), st.visited.Nodup →
      (execTasks rp web tasks st).1.visited.Nodup := by
  intro tasks
  induction tasks with
  | nil => intro st h; exact h
  | cons hd rest ih =>
    obtain ⟨url, depth⟩ := hd
    intro st h
    simp only [execTasks]
    exact ih _ (taskEffect_visited_nodup h)

/-- Every event a level emits is at that level (given the schedule permutes
each level's batch and the queued entries carry the level's depth). -/
theorem runLevel_evAtLevel (rp : Option RobotsParser) (web : String → Option String)
    (md : Nat) (σk : List (String × Nat) → List (String × Nat))
    (hσk : ∀ l, (σk l).Perm l) (k : Nat) (st : CrawlState)
    (hq : ∀ e ∈ st.queue, e.2 = k) :
    ∀ ev ∈ (runLevel rp web md σk st).2, evAtLevel k ev := by
  intro ev h
  simp only [runLevel] at h
  rw [List.mem_append] at h
  rcases h with h | h
  · rcases List.mem_map.mp h with ⟨e, he, rfl⟩
    show e.2 = k
    exact hq e (List.mem_filter.mp he).1
  · refine execTasks_evAtLevel rp web k _ _ ?_ ev h
    intro e he
    exact hq e (List.mem_filter.mp ((hσk _).mem_iff.mp he)).1

/-- After a level whose queued entries carry depth `k`, every queued entry
carries depth `k + 1`. -/
theorem runLevel_queue_depths (rp : Option RobotsParser) (web : String → Option String)
    (md : Nat) (σk : List (String × Nat) → List (String × Nat))
    (hσk : ∀ l, (σk l).Perm l) (k : Nat) (st : CrawlState)
    (hq : ∀ e ∈ st.queue, e.2 = k) :
    ∀ e ∈ (runLevel rp web md σk st).1.queue, e.2 = k + 1 := by
  intro e he
  simp only [runLevel] at he
  refine execTasks_queue_depths rp web k _ _ ?_ ?_ e he
  · intro e' he'
    exact hq e' (List.mem_filter.mp ((hσk _).mem_iff.mp he')).1
  · intro e' he'
    exact absurd he' (List.not_mem_nil e')

/-- Visited-set membership after one level. -/
theorem runLevel_visited_mem {rp : Option RobotsParser} {web : String → Option String}
    {md : Nat} {σk : List (String × Nat) → List (String × Nat)}
    {st : CrawlState} {v : String}
    (h : v ∈ (runLevel rp web md σk st).1.visited) :
    v ∈ st.visited ∨ fetchSucceeds rp web v := by
  simp only [runLevel] at h
  exact execTasks_visited_mem rp web _ { st with queue := [] } v h

/-- `URLManager` visited-set membership after one level. -/
theorem runLevel_um_mem {rp : Option RobotsParser} {web : String → Option String}
    {md : Nat} {σk : List (String × Nat) → List (String × Nat)}
    {st : CrawlState} {v : String}
    (h : v ∈ (runLevel rp web md σk st).1.um.visited_urls) :
    v ∈ st.um.visited_urls ∨ fetchSucceeds rp web v := by
  simp only [runLevel] at h
  exact execTasks_um_mem rp web _ { st with queue := [] } v h

/-- One level preserves freedom from duplicates of the visited set. -/
theorem runLevel_visited_nodup {rp : Option RobotsParser} {web : String → Option String}
    {md : Nat} {σk : List (String × Nat) → List (String × Nat)}
    {st : CrawlState} (h : st.visited.Nodup) :
    (runLevel rp web md σk st).1.visited.Nodup := by
  simp only [runLevel]
  exact execTasks_visited_nodup rp web _ _ h

/-- A level all of whose queued entries exceed the depth limit admits
nothing: the state is only drained. -/
theorem runLevel_over_depth (rp : Option RobotsParser) (web : String → Option String)
    (md : Nat) (σk : List (String × Nat) → List (String × Nat))
    (hσk : ∀ l, (σk l).Perm l) (st : CrawlState)
    (h : ∀ e ∈ st.queue, ¬ e.2 ≤ md) :
    (runLevel rp web md σk st).1 = { st with queue := [] } := by
  have hb : st.queue.filter (fun e => decide (e.2 ≤ md) && st.um.should_visit e.1) = [] := by
    rw [List.filter_eq_nil_iff]
    intro e he
    simp [h e he]
  have hσ0 : σk [] = [] := (hσk []).eq_nil
  simp only [runLevel, hb, hσ0]
  rfl

/-- The loop over levels stops immediately on an empty frontier. -/
theorem runLevels_queue_nil (rp : Option RobotsParser) (web : String → Option String)
    (md : Nat) (σ : Nat → List (String × Nat) → List (String × Nat))
    (fuel k : Nat) (st : CrawlState) (h : st.queue = []) :
    runLevels rp web md σ fuel k st = (st, []) := by
  cases fuel with
  | zero => rfl
  | succ n => simp [runLevels, h]

/-- The level loop emits only dispatches, fetch attempts and
completions. -/
theorem runLevels_shape (rp : Option RobotsParser) (web : String → Option String)
    (md : Nat) (σ : Nat → List (String × Nat) → List (String × Nat)) :
    ∀ (fuel k : Nat) (st : CrawlState),
      ∀ ev ∈ (runLevels rp web md σ fuel k st).2,
        (∃ u d, ev = Ev.dispatch u d) ∨ (∃ u, ev = Ev.fetchAttempt u) ∨
          ∃ u d, ev = Ev.complete u d := by
  intro fuel
  induction fuel with
  | zero => intro k st ev h; simp [runLevels] at h
  | succ n ih =>
    intro k st ev h
    simp only [runLevels] at h
    split at h
    · simp at h
    · rw [List.mem_append] at h
      rcases h with h | h
      · simp only [runLevel] at h
        rw [List.mem_append] at h
        rcases h with h | h
        · rcases List.mem_map.mp h with ⟨e, _, rfl⟩
          exact Or.inl ⟨e.1, e.2, rfl⟩
        · rcases execTasks_shape rp web _ _ ev h with h' | h'
          · exact Or.inr (Or.inl h')
          · exact Or.inr (Or.inr h')
      · exact ih _ _ ev h

/-- Ordering invariant of the level loop: its trace is pairwise ordered by
`evR` (an earlier dispatch never exceeds a later completion's depth), and
every dispatch and completion is at depth at least the starting level. -/
theorem runLevels_ordered (rp : Option RobotsParser) (web : String → Option String)
    (md : Nat) (σ : Nat → List (String × Nat) → List (String × Nat))
    (hσ : ∀ n l, (σ n l).Perm l) :
    ∀ (fuel k : Nat) (st : CrawlState), (∀ e ∈ st.queue, e.2 = k) →
      List.Pairwise evR (runLevels rp web md σ fuel k st).2 ∧
        ∀ ev ∈ (runLevels rp web md σ fuel k st).2, evGeLevel k ev := by
  intro fuel
  induction fuel with
  | zero =>
    intro k st hq
    exact ⟨List.Pairwise.nil, by intro ev h; simp [runLevels] at h⟩
  | succ n ih =>
    intro k st hq
    simp only [runLevels]
    split
    · exact ⟨List.Pairwise.nil, by intro ev h; simp at h⟩
    · have hql : ∀ e ∈ (runLevel rp web md (σ k) st).1.queue, e.2 = k + 1 :=
        runLevel_queue_depths rp web md (σ k) (hσ k) k st hq
      obtain ⟨ihp, ihg⟩ := ih (k + 1) _ hql
      have hlev : ∀ ev ∈ (runLevel rp web md (σ k) st).2, evAtLevel k ev :=
        runLevel_evAtLevel rp web md (σ k) (hσ k) k st hq
      constructor
      · rw [List.pairwise_append]
        refine ⟨?_, ihp, ?_⟩
        · refine List.pairwise_of_forall_mem_list ?_
          intro a ha b hb u d u' d' hae hbe
          have hda := hlev a ha
          have hdb := hlev b hb
          rw [hae] at hda
          rw [hbe] at hdb
          have h1 : d = k := hda
          have h2 : d' = k := hdb
          omega
        · intro a ha b hb u d u' d' hae hbe
          have h1 := hlev a ha
          rw [hae] at h1
          have h1' : d = k := h1
          have h2 := ihg b hb
          rw [hbe] at h2
          have h2' : k + 1 ≤ d' := h2
          omega
      · intro ev h
        rw [List.mem_append] at h
        rcases h with h | h
        · have h1 := hlev ev h
          cases ev with
          | dispatch u d => exact le_of_eq (h1 : d = k).symm
          | complete u d => exact le_of_eq (h1 : d = k).symm
          | fetchAttempt u => trivial
          | robotsGet u => exact h1.elim
          | write l => exact h1.elim
        · have h2 := ihg ev h
          cases ev with
          | dispatch u d => exact le_trans (Nat.le_succ k) h2
          | complete u d => exact le_trans (Nat.le_succ k) h2
          | fetchAttempt u => trivial
          | robotsGet u => trivial
          | write l => trivial

/-- Any URL visited at the end of the level loop was already visited or had
a successful fetch. -/
theorem runLevels_visited_mem (rp : Option RobotsParser) (web : String → Option String)
    (md : Nat) (σ : Nat → List (String × Nat) → List (String × Nat)) :
    ∀ (fuel k : Nat) (st : CrawlState) (v : String),
      v ∈ (runLevels rp web md σ fuel k st).1.visited →
      v ∈ st.visited ∨ fetchSucceeds rp web v := by
  intro fuel
  induction fuel with
  | zero => intro k st v h; exact Or.inl h
  | succ n ih =>
    intro k st v h
    simp only [runLevels] at h
    split at h
    · exact Or.inl h
    · rcases ih _ _ v h with h' | h'
      · exact runLevel_visited_mem h'
      · exact Or.inr h'

/-- Same as `runLevels_visited_mem` for the `URLManager`'s visited set. -/
theorem runLevels_um_mem (rp : Option RobotsParser) (web : String → Option String)
    (md : Nat) (σ : Nat → List (String × Nat) → List (String × Nat)) :
    ∀ (fuel k : Nat) (st : CrawlState) (v : String),
      v ∈ (runLevels rp web md σ fuel k st).1.um.visited_urls →
      v ∈ st.um.visited_urls ∨ fetchSucceeds rp web v := by
  intro fuel
  induction fuel with
  | zero => intro k st v h; exact Or.inl h
  | succ n ih =>
    intro k st v h
    simp only [runLevels] at h
    split at h
    · exact Or.inl h
    · rcases ih _ _ v h with h' | h'
      · exact runLevel_um_mem h'
      · exact Or.inr h'

/-- The level loop preserves freedom from duplicates of the visited set. -/
theorem runLevels_visited_nodup (rp : Option RobotsParser) (web : String → Option String)
    (md : Nat) (σ : Nat → List (String × Nat) → List (String × Nat)) :
    ∀ (fuel k : Nat) (st : CrawlState), st.visited.Nodup →
      (runLevels rp web md σ fuel k st).1.visited.Nodup := by
  intro fuel
  induction fuel with
  | zero => intro k st h; exact h
  | succ n ih =>
    intro k st h
    simp only [runLevels]
    split
    · exact h
    · exact ih _ _ (runLevel_visited_nodup h)

/-- Termination of the level loop with fuel `md + 2`: starting from a
frontier whose entries all carry the current level's depth, the frontier is
fully drained at the end.  Level `md + 1` (reached after at most `md + 1`
productive levels) admits nothing, leaving the queue empty. -/
theorem runLevels_drained (rp : Option RobotsParser) (web : String → Option String)
    (md : Nat) (σ : Nat → List (String × Nat) → List (String × Nat))
    (hσ : ∀ n l, (σ n l).Perm l) :
    ∀ (fuel k : Nat) (st : CrawlState), (∀ e ∈ st.queue, e.2 = k) →
      k ≤ md + 1 → md + 2 ≤ k + fuel →
      (runLevels rp web md σ fuel k st).1.queue = [] := by
  intro fuel
  induction fuel with
  | zero => intro k st _ hk hbound; omega
  | succ n ih =>
    intro k st hq hk hbound
    simp only [runLevels]
    split
    · next h => exact h
    · by_cases hkm : k ≤ md
      · exact ih (k + 1) _ (runLevel_queue_depths rp web md (σ k) (hσ k) k st hq)
          (by omega) (by omega)
      · have hover : ∀ e ∈ st.queue, ¬ e.2 ≤ md := by
          intro e he
          rw [hq e he]
          omega
        rw [runLevel_over_depth rp web md (σ k) (hσ k) st hover,
          runLevels_queue_nil rp web md σ n (k + 1) _ rfl]

/-- A whole run unfolds to the robots GET, the level loop's trace, and the
final write. -/
theorem fullRunTrace_eq (s : String) (w : String → Option String) (r : HttpResult)
    (md : Nat) (σ : Nat → List (String × Nat) → List (String × Nat)) :
    fullRunTrace s w r md σ =
      .robotsGet (robots_url (netlocOf s)) ::
        ((runLevels (load_robots_txt r) w md σ (md + 2) 0
            ⟨⟨netlocOf s, []⟩, [], [(s, 0)]⟩).2 ++
          [.write (write_urls_to_file (runLevels (load_robots_txt r) w md σ (md + 2) 0
            ⟨⟨netlocOf s, []⟩, [], [(s, 0)]⟩).1.visited)]) := rfl

/-- The final state of a whole run is the level loop's final state. -/
theorem fullRunState_eq (s : String) (w : String → Option String) (r : HttpResult)
    (md : Nat) (σ : Nat → List (String × Nat) → List (String × Nat)) :
    fullRunState s w r md σ =
      (runLevels (load_robots_txt r) w md σ (md + 2) 0
        ⟨⟨netlocOf s, []⟩, [], [(s, 0)]⟩).1 := rfl

/-! ### Claim C2 — duplicate fetch of one URL -/

/-- Claim C2 (refuted, code bug): the spec mandates at-most-one fetch per
URL across the crawl, but the admission check at dispatch time and the
`mark_visited` call inside `crawl` are separate, so under the legal
schedule in which a level's tasks all start after the dispatch loop, a URL
discovered by two same-level pages is enqueued twice, admitted twice, and
fetched twice.  Concretely: the seed links to `/a` and `/b`, both link to
`/c`, and the run performs two GETs of `https://example.com/c`. -/
theorem claim_C2_duplicate_fetch :
    (fullRunTrace "https://example.com" exWebDup .failure 3 idSchedule).countP
      (fun ev => ev == Ev.fetchAttempt "https://example.com/c") = 2 := by
  decide

/-! ### Claim C3 — strict breadth-first level ordering -/

/-- Claim C3: the crawl proceeds in strict breadth-first level order — in
any run trace, a completion of a depth-`d` task occurs strictly before any
dispatch of an entry of greater depth, for every schedule of each level's
task completion order. -/
theorem claim_C3_bfs_level_order (start_url : String) (web : String → Option String)
    (resp : HttpResult) (max_depth : Nat)
    (σ : Nat → List (String × Nat) → List (String × Nat))
    (hσ : ∀ n l, (σ n l).Perm l) (i j : Nat) (u u' : String) (d d' : Nat)
    (hi : (fullRunTrace start_url web resp max_depth σ)[i]? = some (.complete u d))
    (hj : (fullRunTrace start_url web resp max_depth σ)[j]? = some (.dispatch u' d'))
    (hd : d < d') : i < j := by
  have hq0 : ∀ e ∈ ([(start_url, 0)] : List (String × Nat)), e.2 = 0 := by
    intro e he
    rw [List.mem_singleton] at he
    subst he
    rfl
  obtain ⟨hpair, -⟩ := runLevels_ordered (load_robots_txt resp) web max_depth σ hσ
    (max_depth + 2) 0 ⟨⟨netlocOf start_url, []⟩, [], [(start_url, 0)]⟩ hq0
  have hfull : List.Pairwise evR (fullRunTrace start_url web resp max_depth σ) := by
    rw [fullRunTrace_eq]
    refine List.Pairwise.cons ?_ ?_
    · intro b _ u1 d1 u2 d2 hae _
      exact absurd hae (by simp)
    · rw [List.pairwise_append]
      refine ⟨hpair, List.pairwise_singleton _ _, ?_⟩
      intro a _ b hb u1 d1 u2 d2 _ hbe
      rw [List.mem_singleton] at hb
      subst hb
      exact absurd hbe (by simp)
  rcases Nat.lt_trichotomy i j with h | h | h
  · exact h
  · subst h
    rw [hi] at hj
    simp at hj
  · exfalso
    obtain ⟨hjlen, hjget⟩ := List.getElem?_eq_some.mp hj
    obtain ⟨hilen, higet⟩ := List.getElem?_eq_some.mp hi
    have hpij := List.pairwise_iff_get.mp hfull ⟨j, hjlen⟩ ⟨i, hilen⟩ (Fin.mk_lt_mk.mpr h)
    have hj' : (fullRunTrace start_url web resp max_depth σ).get ⟨j, hjlen⟩ =
        .dispatch u' d' := by
      rw [List.get_eq_getElem]
      exact hjget
    have hi' : (fullRunTrace start_url web resp max_depth σ).get ⟨i, hilen⟩ =
        .complete u d := by
      rw [List.get_eq_getElem]
      exact higet
    exact absurd (hpij u' d' u d hj' hi') (by omega)

/-- Witness for C3: in the concrete two-page crawl, the completion of the
depth-0 seed sits at trace index 3 and the dispatch of the depth-1 page at
index 4, and the theorem yields `3 < 4`. -/
theorem claim_C3_witness :
    (fullRunTrace "https://example.com" exWebChain .failure 1 idSchedule)[3]? =
        some (.complete "https://example.com" 0) ∧
      (fullRunTrace "https://example.com" exWebChain .failure 1 idSchedule)[4]? =
        some (.dispatch "https://example.com/a" 1) ∧
      3 < 4 := by
  refine ⟨by decide, by decide, ?_⟩
  exact claim_C3_bfs_level_order "https://example.com" exWebChain .failure 1 idSchedule
    (fun n l => List.Perm.refl l) 3 4 "https://example.com" "https://example.com/a" 0 1
    (by decide) (by decide) (by decide)

/-! ### Claim C8 — output determinism and write-once -/

/-- Claim C8: every run writes exactly once, as its last action, after the
frontier is fully drained, and the written lines are exactly the final
visited set, lexicographically sorted and duplicate-free. -/
theorem claim_C8_output_determinism (start_url : String) (web : String → Option String)
    (resp : HttpResult) (max_depth : Nat)
    (σ : Nat → List (String × Nat) → List (String × Nat))
    (hσ : ∀ n l, (σ n l).Perm l) :
    (fullRunTrace start_url web resp max_depth σ).filter Ev.isWrite =
        [.write (write_urls_to_file (fullRunState start_url web resp max_depth σ).visited)] ∧
      (fullRunTrace start_url web resp max_depth σ).getLast? =
        some (.write (write_urls_to_file (fullRunState start_url web resp max_depth σ).visited)) ∧
      (fullRunState start_url web resp max_depth σ).queue = [] ∧
      (write_urls_to_file (fullRunState start_url web resp max_depth σ).visited).Perm
        (fullRunState start_url web resp max_depth σ).visited ∧
      List.Sorted pyLeRel
        (write_urls_to_file (fullRunState start_url web resp max_depth σ).visited) ∧
      (write_urls_to_file (fullRunState start_url web resp max_depth σ).visited).Nodup := by
  have hq0 : ∀ e ∈ ([(start_url, 0)] : List (String × Nat)), e.2 = 0 := by
    intro e he
    rw [List.mem_singleton] at he
    subst he
    rfl
  have hlev : (runLevels (load_robots_txt resp) web max_depth σ (max_depth + 2) 0
      ⟨⟨netlocOf start_url, []⟩, [], [(start_url, 0)]⟩).2.filter Ev.isWrite = [] := by
    rw [List.filter_eq_nil_iff]
    intro ev hev
    rcases runLevels_shape (load_robots_txt resp) web max_depth σ (max_depth + 2) 0
        _ ev hev with ⟨u1, d1, rfl⟩ | ⟨u1, rfl⟩ | ⟨u1, d1, rfl⟩ <;> simp [Ev.isWrite]
  refine ⟨?_, ?_, ?_, ?_, ?_, ?_⟩
  · rw [fullRunTrace_eq, fullRunState_eq]
    simp only [List.filter_cons, List.filter_append, hlev]
    rfl
  · rw [fullRunTrace_eq, fullRunState_eq, ← List.cons_append]
    exact List.getLast?_concat _
  · rw [fullRunState_eq]
    exact runLevels_drained (load_robots_txt resp) web max_depth σ hσ (max_depth + 2) 0
      _ hq0 (by omega) (by omega)
  · exact List.perm_insertionSort pyLeRel _
  · exact List.sorted_insertionSort pyLeRel _
  · refine (List.perm_insertionSort pyLeRel _).nodup_iff.mpr ?_
    rw [fullRunState_eq]
    exact runLevels_visited_nodup (load_robots_txt resp) web max_depth σ (max_depth + 2) 0
      _ List.nodup_nil

/-- Witness for C8 at a concrete crawl: the frontier ends empty and the
written lines are sorted. -/
theorem claim_C8_witness :
    (fullRunState "https://example.com" exWebChain .failure 1 idSchedule).queue = [] ∧
      List.Sorted pyLeRel (write_urls_to_file
        (fullRunState "https://example.com" exWebChain .failure 1 idSchedule).visited) := by
  have h := claim_C8_output_determinism "https://example.com" exWebChain .failure 1 idSchedule
    (fun n l => List.Perm.refl l)
  exact ⟨h.2.2.1, h.2.2.2.2.1⟩

/-! ### Claim C9 — the robots fetch -/

/-- Claim C9 as stated is false: the spec says the single robots GET goes
to `<scheme>://<domain>/robots.txt` with `<scheme>` the seed URL's scheme,
but `_load_robots_txt` hard-codes `https://`; with the seed
`http://example.com/start` the GET goes to
`https://example.com/robots.txt`, not `http://example.com/robots.txt`. -/
theorem claim_C9_counterexample :
    (fullRunTrace "http://example.com/start" exWebEmpty .failure 0 idSchedule).head? =
        some (.robotsGet "https://example.com/robots.txt") ∧
      schemeOf "http://example.com/start" = "http" ∧
      ¬ "https://example.com/robots.txt" =
          schemeOf "http://example.com/start" ++ "://" ++
            netlocOf "http://example.com/start" ++ "/robots.txt" := by
  exact ⟨rfl, by decide, by decide⟩

/-- Claim C9, amended: exactly one robots GET is issued, before any
crawling, to `https://<domain>/robots.txt` (the scheme is always `https`,
whatever the seed's scheme); a 200 response body is parsed into the policy
engine and any other outcome — error status raised by `raise_for_status`,
other non-200 status, or network error — leaves the engine disabled, in
which case the fetch gate treats every URL as allowed (fail-open). -/
theorem claim_C9_amended (start_url body : String) (web : String → Option String)
    (resp : HttpResult) (max_depth status : Nat)
    (σ : Nat → List (String × Nat) → List (String × Nat)) :
    (fullRunTrace start_url web resp max_depth σ).head? =
        some (.robotsGet ("https://" ++ netlocOf start_url ++ "/robots.txt")) ∧
      (fullRunTrace start_url web resp max_depth σ).filter Ev.isRobotsGet =
        [.robotsGet ("https://" ++ netlocOf start_url ++ "/robots.txt")] ∧
      load_robots_txt (.success status body) =
        (if status = 200 then some (RobotsParser.ofRobotsTxt body) else none) ∧
      load_robots_txt .failure = none ∧
      (∀ url, robotsBlocked none url = false) := by
  have hlev : (runLevels (load_robots_txt resp) web max_depth σ (max_depth + 2) 0
      ⟨⟨netlocOf start_url, []⟩, [], [(start_url, 0)]⟩).2.filter Ev.isRobotsGet = [] := by
    rw [List.filter_eq_nil_iff]
    intro ev hev
    rcases runLevels_shape (load_robots_txt resp) web max_depth σ (max_depth + 2) 0
        _ ev hev with ⟨u1, d1, rfl⟩ | ⟨u1, rfl⟩ | ⟨u1, d1, rfl⟩ <;> simp [Ev.isRobotsGet]
  refine ⟨by rw [fullRunTrace_eq]; rfl, ?_, ?_, rfl, fun url => rfl⟩
  · rw [fullRunTrace_eq]
    simp only [List.filter_cons, List.filter_append, hlev]
    rfl
  · by_cases h : status = 200
    · subst h
      simp [load_robots_txt]
    · simp [load_robots_txt, h]

/-! ### Claim C10 — failure isolation -/

/-- Claim C10: when the fetch of a URL raises `RobotsDisallowedError` or
`FetchError`, the `crawl` body returns the empty link set with both visited
sets (indeed the whole state) unchanged, so the URL stays exactly as
admissible as before; consequently every URL in either final visited set —
and hence every line of the output file — had a successful fetch. -/
theorem claim_C10_failure_isolation :
    (∀ (rp : Option RobotsParser) (web : String → Option String) (st : CrawlState)
        (url : String), robotsBlocked rp url = true ∨ web url = none →
        (crawlStep rp web st url).1 = .ok [] ∧ (crawlStep rp web st url).2.1 = st ∧
          (crawlStep rp web st url).2.1.um.should_visit url = st.um.should_visit url) ∧
      ∀ (start_url : String) (web : String → Option String) (resp : HttpResult)
        (max_depth : Nat) (σ : Nat → List (String × Nat) → List (String × Nat))
        (url : String),
        (url ∈ (fullRunState start_url web resp max_depth σ).visited →
            fetchSucceeds (load_robots_txt resp) web url) ∧
          (url ∈ (fullRunState start_url web resp max_depth σ).um.visited_urls →
            fetchSucceeds (load_robots_txt resp) web url) ∧
          (url ∈ write_urls_to_file (fullRunState start_url web resp max_depth σ).visited →
            fetchSucceeds (load_robots_txt resp) web url) := by
  constructor
  · intro rp web st url h
    obtain ⟨h1, h2⟩ := crawlStep_failed rp web st url h
    exact ⟨h1, h2, by rw [h2]⟩
  · intro start_url web resp max_depth σ url
    have hv : url ∈ (fullRunState start_url web resp max_depth σ).visited →
        fetchSucceeds (load_robots_txt resp) web url := by
      intro h
      rw [fullRunState_eq] at h
      rcases runLevels_visited_mem (load_robots_txt resp) web max_depth σ (max_depth + 2) 0
          _ url h with h' | h'
      · exact absurd h' (List.not_mem_nil url)
      · exact h'
    refine ⟨hv, ?_, ?_⟩
    · intro h
      rw [fullRunState_eq] at h
      rcases runLevels_um_mem (load_robots_txt resp) web max_depth σ (max_depth + 2) 0
          _ url h with h' | h'
      · exact absurd h' (List.not_mem_nil url)
      · exact h'
    · intro h
      exact hv ((List.perm_insertionSort pyLeRel _).mem_iff.mp h)

/-- Witness for C10 at concrete inputs: a GET that fails (empty web)
returns the empty link set and leaves the state unchanged. -/
theorem claim_C10_witness :
    (crawlStep none exWebEmpty ⟨⟨"example.com", []⟩, [], []⟩ "https://example.com/x").1 =
        .ok [] ∧
      (crawlStep none exWebEmpty ⟨⟨"example.com", []⟩, [], []⟩ "https://example.com/x").2.1 =
        ⟨⟨"example.com", []⟩, [], []⟩ := by
  have h := claim_C10_failure_isolation.1 none exWebEmpty ⟨⟨"example.com", []⟩, [], []⟩
    "https://example.com/x" (Or.inr rfl)
  exact ⟨h.1, h.2.1⟩

end MonzoCrawler
